import Mathlib

/-!
Verification of the subboard-next-backend record store and its HTTP handlers.

Rust strings are modelled by their UTF-8 byte sequences (`List Nat`, each
element a byte value), `u64` values by `Nat` reduced modulo `2 ^ 64` where the
source wraps, timestamps (`DateTime<Utc>`) by an abstract `Nat` instant, and
`lettre::Address` by its serialized byte string.

The `dmds` storage engine is an external crate: only its callers appear in this
repository's sources.  Its operations (`World::insert`, `try_insert`, `select`,
lazy handles with `get` / `get_mut` / `close` / `destroy`) are modelled from the
spec, with a world represented as the list of its records in iteration order.
All handler bodies (`post`, `get`, `unprocessed`, `approve`, `reject`,
`questions::new`) are translated from `src/paper.rs` and `src/question.rs`.
-/

namespace Subboard

/-! ## 64-bit words and little-endian bytes -/

def W64 : Nat := 2 ^ 64

/-- Addition of two `u64` values, wrapping on overflow. -/
def wadd (a b : Nat) : Nat := (a + b) % W64

/-- Left rotation of a 64-bit word by `n < 64` bits. -/
def rotl (x n : Nat) : Nat := ((x <<< n) % W64) ||| (x >>> (64 - n))

/-- The `k` low-order bytes of `n`, least significant first. -/
def natToLe : Nat → Nat → List Nat
  | 0, _ => []
  | k + 1, n => n % 256 :: natToLe k (n / 256)

/-- Recompose a little-endian byte list into a number. -/
def leToNat : List Nat → Nat
  | [] => 0
  | b :: bs => b + 256 * leToNat bs

/-! ## SipHash

`std::collections::hash_map::DefaultHasher` is SipHash-1-3 and
`siphasher::sip::SipHasher24` is SipHash-2-4, both constructed with the
all-zero key in the source (`DefaultHasher::new()`, `SipHasher24::new()`).
Both are instances of the generic SipHash-c-d construction below, computed
over the byte stream fed to the hasher. -/

structure Sip where
  v0 : Nat
  v1 : Nat
  v2 : Nat
  v3 : Nat

def sipRound (s : Sip) : Sip :=
  let v0 := wadd s.v0 s.v1
  let v1 := rotl s.v1 13
  let v1 := v1 ^^^ v0
  let v0 := rotl v0 32
  let v2 := wadd s.v2 s.v3
  let v3 := rotl s.v3 16
  let v3 := v3 ^^^ v2
  let v0 := wadd v0 v3
  let v3 := rotl v3 21
  let v3 := v3 ^^^ v0
  let v2 := wadd v2 v1
  let v1 := rotl v1 17
  let v1 := v1 ^^^ v2
  let v2 := rotl v2 32
  ⟨v0, v1, v2, v3⟩

def sipRounds : Nat → Sip → Sip
  | 0, s => s
  | n + 1, s => sipRounds n (sipRound s)

/-- Mix one 64-bit message word into the state with `c` rounds. -/
def sipCompress (c m : Nat) (s : Sip) : Sip :=
  let s1 : Sip := { s with v3 := s.v3 ^^^ m }
  let s2 := sipRounds c s1
  { s2 with v0 := s2.v0 ^^^ m }

/-- Process the message eight bytes at a time; the final (possibly empty)
partial block is zero-padded and carries the total length in its top byte. -/
def sipBlocks (c len : Nat) : List Nat → Sip → Sip
  | b0 :: b1 :: b2 :: b3 :: b4 :: b5 :: b6 :: b7 :: rest, s =>
    sipBlocks c len rest (sipCompress c (leToNat [b0, b1, b2, b3, b4, b5, b6, b7]) s)
  | tail, s => sipCompress c (leToNat tail + len % 256 * 2 ^ 56) s

/-- SipHash-c-d of a byte list, keyed with the all-zero key. -/
def sipHash (c d : Nat) (msg : List Nat) : Nat :=
  let s0 : Sip := ⟨0x736f6d6570736575, 0x646f72616e646f6d, 0x6c7967656e657261,
    0x7465646279746573⟩
  let s1 := sipBlocks c msg.length msg s0
  let s2 := sipRounds d { s1 with v2 := s1.v2 ^^^ 0xff }
  s2.v0 ^^^ s2.v1 ^^^ s2.v2 ^^^ s2.v3

/-! ## Record types (`src/paper.rs`, `src/question.rs`) -/

inductive Status where
  | Pending
  | Approved
deriving DecidableEq

/-- `Status as u8 as u64`: the discriminant used as dimension 1. -/
def Status.toDim : Status → Nat
  | .Pending => 0
  | .Approved => 1

/-- Paper or question from the frontend (`In` in both source files: the two
structs have identical fields). -/
structure In where
  name : List Nat
  info : List Nat
  email : Option (List Nat)
deriving DecidableEq

structure Paper where
  name : List Nat
  info : List Nat
  email : Option (List Nat)
  pid : Nat
  time : Nat
  status : Status
deriving DecidableEq

/-- Paper to the frontend (`Out` in `src/paper.rs`): drops the status. -/
structure Out where
  name : List Nat
  info : List Nat
  email : Option (List Nat)
  pid : Nat
  time : Nat
deriving DecidableEq

structure Question where
  name : List Nat
  info : List Nat
  email : Option (List Nat)
  pid : Nat
  time : Nat
deriving DecidableEq

/-- Persisted payload (`Store` in both source files): the fields of the record
minus the dimension values (pid, status). -/
structure Store where
  name : List Nat
  info : List Nat
  email : Option (List Nat)
  time : Nat
deriving DecidableEq

/-- The byte stream fed to the hasher by `In`'s derived `Hash`
implementation: each string contributes its bytes followed by the `0xff`
terminator, and the `Option` contributes its discriminant as an 8-byte word
followed by the hashed address for `Some`. -/
def inHashBytes (v : In) : List Nat :=
  v.name ++ [0xff] ++ v.info ++ [0xff] ++
    (match v.email with
     | none => natToLe 8 0
     | some e => natToLe 8 1 ++ e ++ [0xff])

/-- `impl From<In> for Paper`: pid from `DefaultHasher` (SipHash-1-3). -/
def paperPid (v : In) : Nat := sipHash 1 3 (inHashBytes v)

/-- `impl From<In> for Question`: pid from `SipHasher24`. -/
def questionPid (v : In) : Nat := sipHash 2 4 (inHashBytes v)

/-- `impl From<In> for Paper`: hash the input, stamp the current time, start
`Pending`. -/
def Paper.fromIn (v : In) (now : Nat) : Paper :=
  { name := v.name, info := v.info, email := v.email,
    pid := paperPid v, time := now, status := .Pending }

/-- `impl From<In> for Question`. -/
def Question.fromIn (v : In) (now : Nat) : Question :=
  { name := v.name, info := v.info, email := v.email,
    pid := questionPid v, time := now }

def Paper.toOut (p : Paper) : Out :=
  { name := p.name, info := p.info, email := p.email, pid := p.pid, time := p.time }

def Paper.toStore (p : Paper) : Store :=
  { name := p.name, info := p.info, email := p.email, time := p.time }

def Question.toStore (q : Question) : Store :=
  { name := q.name, info := q.info, email := q.email, time := q.time }

/-! ## Codec

`bincode` default wire format: strings as a `u64` little-endian length prefix
followed by the raw bytes, `Option` as a one-byte tag (0 = `None`, 1 = `Some`)
followed by the value; the timestamp's serialization is abstracted as a
fixed-width 8-byte little-endian integer. -/

def encBytes (s : List Nat) : List Nat := natToLe 8 s.length ++ s

def encOpt : Option (List Nat) → List Nat
  | none => 0 :: []
  | some s => 1 :: encBytes s

/-- `bincode::serialize_into` of a `Store` (fields in declaration order). -/
def Store.encode (st : Store) : List Nat :=
  encBytes st.name ++ encBytes st.info ++ encOpt st.email ++ natToLe 8 st.time

/-- Read a `k`-byte little-endian integer off the front of the stream. -/
def readLe : Nat → List Nat → Option (Nat × List Nat)
  | 0, l => some (0, l)
  | _ + 1, [] => none
  | k + 1, b :: l =>
    match readLe k l with
    | some (n, r) => some (b + 256 * n, r)
    | none => none

/-- Read `k` raw bytes off the front of the stream. -/
def readChunk : Nat → List Nat → Option (List Nat × List Nat)
  | 0, l => some ([], l)
  | _ + 1, [] => none
  | k + 1, b :: l =>
    match readChunk k l with
    | some (bs, r) => some (b :: bs, r)
    | none => none

def readStr (l : List Nat) : Option (List Nat × List Nat) :=
  match readLe 8 l with
  | some (n, r) => readChunk n r
  | none => none

def readOpt (l : List Nat) : Option (Option (List Nat) × List Nat) :=
  match l with
  | 0 :: r => some (none, r)
  | 1 :: r =>
    match readStr r with
    | some (s, r2) => some (some s, r2)
    | none => none
  | _ => none

/-- `bincode::deserialize_from` of a `Store`; trailing bytes are permitted,
as with a reader. -/
def Store.decode (l : List Nat) : Option Store :=
  match readStr l with
  | none => none
  | some (name, r1) =>
    match readStr r1 with
    | none => none
    | some (info, r2) =>
      match readOpt r2 with
      | none => none
      | some (email, r3) =>
        match readLe 8 r3 with
        | none => none
        | some (time, _) => some ⟨name, info, email, time⟩

/-- Outcome of a fallible Rust function that may also panic:
`ioErr` is `Err(std::io::Error)`, `panicked` is an `unreachable!()` panic or
an out-of-bounds slice index. -/
inductive DecodeResult (α : Type) where
  | ok (value : α)
  | ioErr
  | panicked
deriving DecidableEq

/-- `<Paper as dmds::Data>::encode`: serialize `to_store()` — the dimension
values (pid, status) are not written. -/
def Paper.encode (p : Paper) : List Nat := p.toStore.encode

/-- `<Paper as dmds::Data>::decode`: deserialize the payload, then rebuild the
dimension fields from `dims[0]` and `dims[1] as u8`. -/
def Paper.decode (dims buf : List Nat) : DecodeResult Paper :=
  match Store.decode buf with
  | none => .ioErr
  | some st =>
    match dims with
    | d0 :: d1 :: _ =>
      .ok { name := st.name, info := st.info, email := st.email, time := st.time,
            pid := d0,
            status := if d1 % 256 = 0 then Status.Pending else Status.Approved }
    | _ => .panicked

/-- `<Question as dmds::Data>::encode`. -/
def Question.encode (q : Question) : List Nat := q.toStore.encode

/-- `<Question as dmds::Data>::decode`: dispatch on the schema version;
version 1 deserializes the payload and takes the pid from `dims[0]`, any
other version is `unreachable!()` — a panic. -/
def Question.decode (version : Nat) (dims buf : List Nat) : DecodeResult Question :=
  match version with
  | 1 =>
    match Store.decode buf with
    | none => .ioErr
    | some st =>
      match dims with
      | d0 :: _ =>
        .ok { name := st.name, info := st.info, email := st.email,
              pid := d0, time := st.time }
      | _ => .panicked
  | _ => .panicked

/-! ## The record store

Modelled from the spec: the `dmds` engine itself is not part of this
repository's sources (only its callers are).  A world is the list of its
records in iteration order; a record's address is its full dimension tuple;
`insert` replaces the record at an occupied address and returns the previous
occupant (spec 4.6: `insert(record) -> previous | None`); `try_insert` fails
on an occupied address; a selection filters by the constrained dimensions and
streams in world order (spec 5: no ordering is guaranteed); `close` after a
status flip moves the record to its new address (spec 4.5); `destroy` removes
the record at its address.  The request-path models are I/O-error-free except
where a claim is about errored candidates (`unprocessedLoop`). -/

/-- `<Paper as dmds::Data>::dim`: dimension 0 is the pid, dimension 1 the
status discriminant; any other axis is `unreachable!()`, modelled as `none`. -/
def Paper.dim (p : Paper) : Nat → Option Nat
  | 0 => some p.pid
  | 1 => some p.status.toDim
  | _ => none

/-- `<Question as dmds::Data>::dim`. -/
def Question.dim (q : Question) : Nat → Option Nat
  | 0 => some q.pid
  | _ => none

/-- A paper's full dimension tuple — its storage address. -/
def paperKey (p : Paper) : Nat × Nat := (p.pid, p.status.toDim)

/-- Modelled from the spec: store invariant — one record per address
(spec 3: a record belongs to exactly one chunk, addressed by its tuple). -/
def PaperWorld.wf (w : List Paper) : Prop := (w.map paperKey).Nodup

instance (w : List Paper) : Decidable (PaperWorld.wf w) := by
  unfold PaperWorld.wf; infer_instance

/-- Modelled from the spec: `World::try_insert`, failing (`none`) when the
full dimension tuple is already occupied. -/
def tryInsertPaper (w : List Paper) (p : Paper) : Option (List Paper) :=
  if w.any (fun q => decide (paperKey q = paperKey p)) then none
  else some (w ++ [p])

/-- Modelled from the spec: `World::insert`, replacing the record at an
occupied address and returning the previous occupant. -/
def insertPaper (w : List Paper) (p : Paper) : Option Paper × List Paper :=
  match w.find? (fun q => decide (paperKey q = paperKey p)) with
  | some prev => (some prev, w.map fun q => if paperKey q = paperKey p then p else q)
  | none => (none, w ++ [p])

/-- Modelled from the spec: `World::insert` for questions (single dimension). -/
def insertQuestion (w : List Question) (q : Question) : Option Question × List Question :=
  match w.find? (fun r => decide (r.pid = q.pid)) with
  | some prev => (some prev, w.map fun r => if r.pid = q.pid then q else r)
  | none => (none, w ++ [q])

/-- Modelled from the spec: `World::select(d, v)` — the records matching the
constraint, in world order. -/
def selectPaper (w : List Paper) (d v : Nat) : List Paper :=
  w.filter fun p => decide (p.dim d = some v)

/-- Modelled from the spec: `World::select(d1, v1).and(d2, v2)`. -/
def selectPaper2 (w : List Paper) (d1 v1 d2 v2 : Nat) : List Paper :=
  w.filter fun p => decide (p.dim d1 = some v1) && decide (p.dim d2 = some v2)

/-- Modelled from the spec: removal of the record at address `k`
(`destroy`, or the delete half of `close`'s move).  Under `PaperWorld.wf`
at most one record occupies the address. -/
def removeAt (w : List Paper) (k : Nat × Nat) : List Paper :=
  w.filter fun q => !(decide (paperKey q = k))

/-! ## HTTP handlers (`src/paper.rs`, `src/question.rs`) -/

instance {ε α : Type} [DecidableEq ε] [DecidableEq α] : DecidableEq (Except ε α) :=
  fun x y =>
  match x, y with
  | .ok a, .ok b =>
    if h : a = b then .isTrue (by rw [h]) else .isFalse (by intro hc; cases hc; exact h rfl)
  | .ok _, .error _ => .isFalse (by intro hc; cases hc)
  | .error _, .ok _ => .isFalse (by intro hc; cases hc)
  | .error e, .error f =>
    if h : e = f then .isTrue (by rw [h]) else .isFalse (by intro hc; cases hc; exact h rfl)

/-- `paper::Error`. -/
inductive PaperError where
  | Db
  | PidConflict
  | NoPaper
  | NotFound
deriving DecidableEq

/-- `impl IntoResponse for paper::Error`: the HTTP status code. -/
def PaperError.statusCode : PaperError → Nat
  | .Db => 500
  | .PidConflict => 409
  | .NoPaper => 404
  | .NotFound => 404

/-- `question::Error`. -/
inductive QuestionError where
  | Db
  | PidConflict
deriving DecidableEq

/-- `impl IntoResponse for question::Error`. -/
def QuestionError.statusCode : QuestionError → Nat
  | .Db => 500
  | .PidConflict => 409

/-- `POST /paper/post`: convert the input (stamping time `now`), `try_insert`,
map a conflict to `PidConflict`.  Returns the response and the world after
the call. -/
def post (w : List Paper) (input : In) (now : Nat) :
    Except PaperError Unit × List Paper :=
  match tryInsertPaper w (Paper.fromIn input now) with
  | none => (.error .PidConflict, w)
  | some w2 => (.ok (), w2)

/-- `POST /questions/new`: `insert` the converted input; a returned previous
occupant is reported as `PidConflict`. -/
def newQuestion (w : List Question) (input : In) (now : Nat) :
    Except QuestionError Unit × List Question :=
  match insertQuestion w (Question.fromIn input now) with
  | (some _, w2) => (.error .PidConflict, w2)
  | (none, w2) => (.ok (), w2)

/-- Pids collected by the first phase of `GET /paper/get`:
`select(1, Approved)`, keeping each candidate's `id()`. -/
def approvedPids (w : List Paper) : List Nat :=
  (selectPaper w 1 Status.Approved.toDim).map Paper.pid

/-- `GET /paper/get`: pick a random element of the approved pids
(`fastrand::choice`, modelled by the draw `r`: the element at index
`r % length`); `NoPaper` when there are none.  Then `select(0, pid)` and
return the first candidate whose `id()` equals the chosen pid. -/
def getPaper (w : List Paper) (r : Nat) : Except PaperError Paper :=
  match approvedPids w with
  | [] => .error .NoPaper
  | ids@(_ :: _) =>
    let pid := ids.getD (r % ids.length) 0
    match (selectPaper w 0 pid).find? (fun p => decide (p.pid = pid)) with
    | some p => .ok p
    | none => .error .Db

/-- The candidate loop of `GET unprocessed`, translated clause by clause:
`while let Some(Ok(lazy)) = iter.next()` ends the whole loop at the first
errored stream item, while `if let Ok(val) = lazy.get()` merely skips a
candidate whose deferred read fails.  The outer `Except` is the stream item
(`iter.next()`), the inner one the deferred read (`lazy.get()`). -/
def unprocessedLoop : List (Except Unit (Except Unit Paper)) → List Out
  | [] => []
  | .error _ :: _ => []
  | .ok (.error _) :: rest => unprocessedLoop rest
  | .ok (.ok p) :: rest => p.toOut :: unprocessedLoop rest

/-- `GET unprocessed` on an error-free stream: every candidate of
`select(1, Pending)` arrives as an `Ok` item and reads back successfully. -/
def unprocessed (w : List Paper) : List Out :=
  unprocessedLoop ((selectPaper w 1 Status.Pending.toDim).map (fun p => .ok (.ok p)))

/-- `POST approve`: `select(0, pid).and(1, Pending)`, take the first candidate
whose `id()` is `pid`, `get_mut`, set `Approved`, `close`.  The close moves
the record from `(pid, Pending)` to `(pid, Approved)` (spec 4.5: remove from
the source address, insert at the destination). -/
def approve (w : List Paper) (pid : Nat) : Except PaperError Unit × List Paper :=
  match (selectPaper2 w 0 pid 1 Status.Pending.toDim).find?
      (fun p => decide (p.pid = pid)) with
  | none => (.error .NotFound, w)
  | some p =>
    (.ok (), (insertPaper (removeAt w (paperKey p)) { p with status := Status.Approved }).2)

/-- `POST reject`: `select(0, pid).and(1, Pending)`, take the first candidate
whose `id()` is `pid`, `destroy` it. -/
def reject (w : List Paper) (pid : Nat) : Except PaperError Unit × List Paper :=
  match (selectPaper2 w 0 pid 1 Status.Pending.toDim).find?
      (fun p => decide (p.pid = pid)) with
  | none => (.error .NotFound, w)
  | some p => (.ok (), removeAt w (paperKey p))

/-- Length of the optional email's byte string (0 for `None`): a decidable
way to bound the serialized width of the `Option` field. -/
def optLen : Option (List Nat) → Nat
  | none => 0
  | some s => s.length

/-! ## Concrete records used in the closed examples -/

def exIn : In := { name := [89, 106, 110], info := [72, 105], email := none }

def PE : Paper :=
  { name := [1, 2], info := [3], email := some [4], pid := 7, time := 3,
    status := .Approved }

def QE : Question := { name := [1], info := [2], email := none, pid := 9, time := 4 }

def A8 : Paper :=
  { name := [97], info := [97], email := none, pid := 1, time := 10, status := .Pending }

def B8 : Paper :=
  { name := [98], info := [98], email := none, pid := 2, time := 11, status := .Pending }

def P9 : Paper :=
  { name := [97], info := [98], email := none, pid := 5, time := 10, status := .Pending }

def Q9 : Paper :=
  { name := [97], info := [99], email := none, pid := 5, time := 11, status := .Approved }

def PW : Paper :=
  { name := [97], info := [98], email := none, pid := 5, time := 3, status := .Pending }

/-! ## Codec lemmas -/

theorem readLe_natToLe (k n : Nat) (r : List Nat) :
    readLe k (natToLe k n ++ r) = some (n % 256 ^ k, r) := by
  induction k generalizing n with
  | zero => simp [readLe, natToLe, Nat.mod_one]
  | succ k ih =>
    simp only [natToLe, List.cons_append, readLe, List.append_eq, ih]
    have h : 256 ^ (k + 1) = 256 * 256 ^ k := by
      rw [Nat.pow_succ, Nat.mul_comm]
    rw [h, Nat.mod_mul]

theorem readChunk_append (bs r : List Nat) :
    readChunk bs.length (bs ++ r) = some (bs, r) := by
  induction bs with
  | nil => simp [readChunk]
  | cons b bs ih => simp [readChunk, ih]

theorem pow256_eq : (256 : Nat) ^ 8 = W64 := by norm_num [W64]

theorem readStr_encBytes (s r : List Nat) (h : s.length < W64) :
    readStr (encBytes s ++ r) = some (s, r) := by
  have h8 : s.length % 256 ^ 8 = s.length :=
    Nat.mod_eq_of_lt (by rw [pow256_eq]; exact h)
  simp only [readStr, encBytes, List.append_assoc, readLe_natToLe, h8]
  exact readChunk_append s r

theorem readOpt_encOpt (e : Option (List Nat)) (r : List Nat) (h : optLen e < W64) :
    readOpt (encOpt e ++ r) = some (e, r) := by
  cases e with
  | none => rfl
  | some s =>
    simp only [encOpt, List.cons_append, readOpt,
      readStr_encBytes s r (by simpa [optLen] using h)]

theorem store_decode_encode (st : Store) (hn : st.name.length < W64)
    (hi : st.info.length < W64) (he : optLen st.email < W64) (ht : st.time < W64) :
    Store.decode st.encode = some st := by
  have h8 : st.time % 256 ^ 8 = st.time :=
    Nat.mod_eq_of_lt (by rw [pow256_eq]; exact ht)
  have hLast : readLe 8 (natToLe 8 st.time) = some (st.time, []) := by
    rw [← List.append_nil (natToLe 8 st.time), readLe_natToLe, h8]
  simp only [Store.decode, Store.encode, List.append_assoc,
    readStr_encBytes st.name _ hn, readStr_encBytes st.info _ hi,
    readOpt_encOpt st.email _ he, hLast]

theorem paper_decode_encode (p : Paper) (hn : p.name.length < W64)
    (hi : p.info.length < W64) (he : optLen p.email < W64) (ht : p.time < W64) :
    Paper.decode [p.pid, p.status.toDim] p.encode = .ok p := by
  have hst : Store.decode p.toStore.encode = some p.toStore :=
    store_decode_encode p.toStore hn hi he ht
  simp only [Paper.decode, Paper.encode, hst]
  cases hps : p.status with
  | Pending => rw [if_pos (by decide), ← hps]; exact rfl
  | Approved => rw [if_neg (by decide), ← hps]; exact rfl

theorem question_decode_encode (q : Question) (hn : q.name.length < W64)
    (hi : q.info.length < W64) (he : optLen q.email < W64) (ht : q.time < W64) :
    Question.decode 1 [q.pid] q.encode = .ok q := by
  have hst : Store.decode q.toStore.encode = some q.toStore :=
    store_decode_encode q.toStore hn hi he ht
  simp only [Question.decode, Question.encode, hst]
  exact rfl

/-! ## Store lemmas -/

theorem toDim_inj {s t : Status} : s.toDim = t.toDim ↔ s = t := by
  cases s <;> cases t <;> decide

theorem dim0_some {p : Paper} {v : Nat} : p.dim 0 = some v ↔ p.pid = v := by
  simp [Paper.dim]

theorem dim1_some {p : Paper} {s : Status} : p.dim 1 = some s.toDim ↔ p.status = s := by
  simp only [Paper.dim, Option.some.injEq]
  exact toDim_inj

theorem selectPaper_mem {w : List Paper} {d v : Nat} {q : Paper} :
    q ∈ selectPaper w d v ↔ q ∈ w ∧ q.dim d = some v := by
  simp [selectPaper, List.mem_filter]

theorem selectPaper2_mem {w : List Paper} {d1 v1 d2 v2 : Nat} {q : Paper} :
    q ∈ selectPaper2 w d1 v1 d2 v2 ↔
      q ∈ w ∧ q.dim d1 = some v1 ∧ q.dim d2 = some v2 := by
  simp [selectPaper2, List.mem_filter, and_assoc]

theorem wf_inj {w : List Paper} (hw : PaperWorld.wf w) {p q : Paper}
    (hp : p ∈ w) (hq : q ∈ w) (hk : paperKey p = paperKey q) : p = q :=
  List.inj_on_of_nodup_map hw hp hq hk

theorem mem_removeAt {w : List Paper} {k : Nat × Nat} {q : Paper} :
    q ∈ removeAt w k ↔ q ∈ w ∧ paperKey q ≠ k := by
  simp [removeAt, List.mem_filter]

theorem mem_insertPaper {u : List Paper} {p q : Paper} :
    q ∈ (insertPaper u p).2 ↔ (q ∈ u ∧ paperKey q ≠ paperKey p) ∨ q = p := by
  unfold insertPaper
  cases hf : u.find? (fun x => decide (paperKey x = paperKey p)) with
  | none =>
    have hn := List.find?_eq_none.mp hf
    simp only [List.mem_append, List.mem_singleton]
    constructor
    · rintro (hq | rfl)
      · exact Or.inl ⟨hq, by simpa using hn q hq⟩
      · exact Or.inr rfl
    · rintro (⟨hq, _⟩ | rfl)
      · exact Or.inl hq
      · exact Or.inr rfl
  | some prev =>
    have hprev : paperKey prev = paperKey p := by simpa using List.find?_some hf
    have hmem : prev ∈ u := List.mem_of_find?_eq_some hf
    simp only [List.mem_map]
    constructor
    · rintro ⟨r, hr, hfr⟩
      by_cases hk : paperKey r = paperKey p
      · right; rw [if_pos hk] at hfr; exact hfr.symm
      · left; rw [if_neg hk] at hfr; subst hfr; exact ⟨hr, hk⟩
    · rintro (⟨hq, hk⟩ | rfl)
      · exact ⟨q, hq, if_neg hk⟩
      · exact ⟨prev, hmem, if_pos hprev⟩

theorem find_pending_some {w : List Paper} {pid : Nat} {p : Paper}
    (hw : PaperWorld.wf w) (hp : p ∈ w) (h1 : p.pid = pid)
    (h2 : p.status = Status.Pending) :
    (selectPaper2 w 0 pid 1 Status.Pending.toDim).find?
      (fun x => decide (x.pid = pid)) = some p := by
  have hpsel : p ∈ selectPaper2 w 0 pid 1 Status.Pending.toDim :=
    selectPaper2_mem.mpr ⟨hp, dim0_some.mpr h1, dim1_some.mpr h2⟩
  have hfs : ((selectPaper2 w 0 pid 1 Status.Pending.toDim).find?
      (fun x => decide (x.pid = pid))).isSome = true :=
    List.find?_isSome.mpr ⟨p, hpsel, decide_eq_true h1⟩
  obtain ⟨x, hx⟩ := Option.isSome_iff_exists.mp hfs
  have hxsel := selectPaper2_mem.mp (List.mem_of_find?_eq_some hx)
  have hkx : paperKey x = paperKey p := by
    have e0 : x.pid = pid := dim0_some.mp hxsel.2.1
    have e1 : x.status = Status.Pending := dim1_some.mp hxsel.2.2
    simp [paperKey, e0, e1, h1, h2]
  rw [hx, wf_inj hw hxsel.1 hp hkx]

theorem find_pending_none {w : List Paper} {pid : Nat}
    (hno : ∀ x ∈ w, x.pid = pid → x.status ≠ Status.Pending) :
    (selectPaper2 w 0 pid 1 Status.Pending.toDim).find?
      (fun x => decide (x.pid = pid)) = none := by
  apply List.find?_eq_none.mpr
  intro x hxsel _
  have hx := selectPaper2_mem.mp hxsel
  exact hno x hx.1 (dim0_some.mp hx.2.1) (dim1_some.mp hx.2.2)

theorem approve_found {w : List Paper} {pid : Nat} {p : Paper}
    (hw : PaperWorld.wf w) (hp : p ∈ w) (h1 : p.pid = pid)
    (h2 : p.status = Status.Pending) :
    approve w pid =
      (.ok (), (insertPaper (removeAt w (paperKey p))
        { p with status := Status.Approved }).2) := by
  unfold approve
  rw [find_pending_some hw hp h1 h2]

theorem approve_none {w : List Paper} {pid : Nat}
    (hno : ∀ x ∈ w, x.pid = pid → x.status ≠ Status.Pending) :
    approve w pid = (.error .NotFound, w) := by
  unfold approve
  rw [find_pending_none hno]

theorem reject_found {w : List Paper} {pid : Nat} {p : Paper}
    (hw : PaperWorld.wf w) (hp : p ∈ w) (h1 : p.pid = pid)
    (h2 : p.status = Status.Pending) :
    reject w pid = (.ok (), removeAt w (paperKey p)) := by
  unfold reject
  rw [find_pending_some hw hp h1 h2]

theorem reject_none {w : List Paper} {pid : Nat}
    (hno : ∀ x ∈ w, x.pid = pid → x.status ≠ Status.Pending) :
    reject w pid = (.error .NotFound, w) := by
  unfold reject
  rw [find_pending_none hno]

theorem mem_approve {w : List Paper} {pid : Nat} {p : Paper}
    (hw : PaperWorld.wf w) (hp : p ∈ w) (h1 : p.pid = pid)
    (h2 : p.status = Status.Pending) {q : Paper} :
    q ∈ (approve w pid).2 ↔
      (q ∈ w ∧ paperKey q ≠ (pid, 0) ∧ paperKey q ≠ (pid, 1)) ∨
      q = { p with status := Status.Approved } := by
  rw [approve_found hw hp h1 h2]
  have hkp : paperKey p = (pid, 0) := by simp [paperKey, h1, h2, Status.toDim]
  have hkp2 : paperKey { p with status := Status.Approved } = (pid, 1) := by
    simp [paperKey, h1, Status.toDim]
  rw [show ((Except.ok () : Except PaperError Unit),
      (insertPaper (removeAt w (paperKey p)) { p with status := Status.Approved }).2).2 =
      (insertPaper (removeAt w (paperKey p)) { p with status := Status.Approved }).2 from rfl]
  rw [mem_insertPaper, mem_removeAt, hkp, hkp2]
  tauto

theorem mem_approvedPids {w : List Paper} {x : Nat} :
    x ∈ approvedPids w ↔ ∃ a ∈ w, a.status = Status.Approved ∧ a.pid = x := by
  simp only [approvedPids, List.mem_map]
  constructor
  · rintro ⟨a, ha, rfl⟩
    have hm := selectPaper_mem.mp ha
    exact ⟨a, hm.1, dim1_some.mp hm.2, rfl⟩
  · rintro ⟨a, ha, hs, rfl⟩
    exact ⟨a, selectPaper_mem.mpr ⟨ha, dim1_some.mpr hs⟩, rfl⟩

theorem getPaper_nil {w : List Paper} (h : approvedPids w = []) (r : Nat) :
    getPaper w r = .error .NoPaper := by
  simp [getPaper, h]

theorem getD_mod_mem (x : Nat) (xs : List Nat) (r : Nat) :
    (x :: xs).getD (r % (x :: xs).length) 0 ∈ x :: xs := by
  have hlt : r % (x :: xs).length < (x :: xs).length := Nat.mod_lt _ (by simp)
  rw [List.getD_eq_getElem _ _ hlt]
  exact List.getElem_mem hlt

theorem getPaper_ok {w : List Paper} {x : Nat} {xs : List Nat} (r : Nat)
    (hids : approvedPids w = x :: xs) :
    ∃ p, getPaper w r = .ok p ∧ p ∈ w ∧
      p.pid = (x :: xs).getD (r % (x :: xs).length) 0 := by
  have hpidmem : (x :: xs).getD (r % (x :: xs).length) 0 ∈ approvedPids w := by
    rw [hids]; exact getD_mod_mem x xs r
  obtain ⟨a, haw, hsa, hpa⟩ := mem_approvedPids.mp hpidmem
  have hasel : a ∈ selectPaper w 0 ((x :: xs).getD (r % (x :: xs).length) 0) :=
    selectPaper_mem.mpr ⟨haw, dim0_some.mpr hpa⟩
  have hfs : ((selectPaper w 0 ((x :: xs).getD (r % (x :: xs).length) 0)).find?
      (fun q => decide (q.pid = (x :: xs).getD (r % (x :: xs).length) 0))).isSome = true :=
    List.find?_isSome.mpr ⟨a, hasel, decide_eq_true hpa⟩
  obtain ⟨p, hp⟩ := Option.isSome_iff_exists.mp hfs
  have hpw : p ∈ w := (selectPaper_mem.mp (List.mem_of_find?_eq_some hp)).1
  have hppid := List.find?_some hp
  simp only [decide_eq_true_eq] at hppid
  refine ⟨p, ?_, hpw, hppid⟩
  simp only [getPaper, hids]
  rw [hp]

theorem length_filter_key_eq_one {α : Type} (f : α → Nat) (w : List α) (x : Nat)
    (hnd : (w.map f).Nodup) (hex : ∃ a ∈ w, f a = x) :
    (w.filter fun a => decide (f a = x)).length = 1 := by
  induction w with
  | nil => simp at hex
  | cons b w ih =>
    rw [List.map_cons, List.nodup_cons] at hnd
    by_cases hb : f b = x
    · rw [List.filter_cons, if_pos (by simp [hb])]
      have hrest : w.filter (fun a => decide (f a = x)) = [] := by
        apply List.filter_eq_nil_iff.mpr
        intro a ha
        simp only [decide_eq_true_eq]
        intro hax
        apply hnd.1
        rw [hb, ← hax]
        exact List.mem_map_of_mem f ha
      rw [hrest]
      rfl
    · rw [List.filter_cons, if_neg (by simp [hb])]
      apply ih hnd.2
      rcases hex with ⟨a, ha, hax⟩
      rcases List.mem_cons.mp ha with rfl | haw
      · exact absurd hax hb
      · exact ⟨a, haw, hax⟩

/-! ## Claim theorems -/

/-- Claim C1: the pid of a record built from a frontend input is a
deterministic function of exactly the input's fields (name, info, optional
email): converting the same input twice yields the same pid for papers and
for questions, independently of the server-generated timestamp. -/
theorem pid_content_addressed (v : In) (t1 t2 : Nat) :
    (Paper.fromIn v t1).pid = paperPid v ∧
    (Question.fromIn v t1).pid = questionPid v ∧
    (Paper.fromIn v t1).pid = (Paper.fromIn v t2).pid ∧
    (Question.fromIn v t1).pid = (Question.fromIn v t2).pid :=
  ⟨rfl, rfl, rfl, rfl⟩

/-- Claim C3: decoding the bytes produced by `encode`, for the record's
schema version and with the dimension values supplied externally, rebuilds a
record equal to the original (for payload widths below `u64`, as in the
source); and the payload never contains the dimension values — encoding is
unchanged under any alteration of pid and status. -/
theorem codec_round_trip :
    (∀ p : Paper, p.name.length < W64 → p.info.length < W64 →
      optLen p.email < W64 → p.time < W64 →
      Paper.decode [p.pid, p.status.toDim] p.encode = .ok p) ∧
    (∀ q : Question, q.name.length < W64 → q.info.length < W64 →
      optLen q.email < W64 → q.time < W64 →
      Question.decode 1 [q.pid] q.encode = .ok q) ∧
    (∀ (p : Paper) (pid2 : Nat) (st2 : Status),
      Paper.encode { p with pid := pid2, status := st2 } = p.encode) ∧
    (∀ (q : Question) (pid2 : Nat), Question.encode { q with pid := pid2 } = q.encode) :=
  ⟨paper_decode_encode, question_decode_encode, fun _ _ _ => rfl, fun _ _ => rfl⟩

/-- Closed instance of C3 at concrete records. -/
theorem codec_round_trip_witness :
    PE.time < W64 ∧ QE.time < W64 ∧
    Paper.decode [PE.pid, PE.status.toDim] PE.encode = .ok PE ∧
    Question.decode 1 [QE.pid] QE.encode = .ok QE :=
  ⟨by decide, by decide,
   codec_round_trip.1 PE (by decide) (by decide) (by decide) (by decide),
   codec_round_trip.2.1 QE (by decide) (by decide) (by decide) (by decide)⟩

/-- Claim C7 counterexample: at version 2, `Question::decode` does not return
a decode error — it panics (`unreachable!()`). -/
theorem question_decode_unknown_version_cex :
    Question.decode 2 [0] [] = .panicked ∧ Question.decode 2 [0] [] ≠ .ioErr := by
  decide

/-- Claim C7 (amended): for every schema version other than 1,
`Question::decode` panics via `unreachable!()` — it does not attempt a
best-effort parse of the payload, but neither does it return a graceful
decode error. -/
theorem question_decode_unknown_version (version : Nat) (dims buf : List Nat)
    (h : version ≠ 1) : Question.decode version dims buf = .panicked := by
  match version with
  | 0 => rfl
  | 1 => exact absurd rfl h
  | _ + 2 => rfl

/-- Closed instance of C7 (amended) at version 0. -/
theorem question_decode_unknown_version_witness :
    (0 : Nat) ≠ 1 ∧ Question.decode 0 [] [] = .panicked :=
  ⟨by decide, question_decode_unknown_version 0 [] [] (by decide)⟩

/-- Claim C8: the unprocessed-papers loop `while let Some(Ok(lazy)) = ...`
ends the whole scan at the first errored stream item: with the decodable
pending papers `A8` and `B8` around an errored candidate, only `A8` is
returned and `B8` is lost, where the spec requires the scan to skip the
errored candidate and continue. -/
theorem unprocessed_scan_aborts_on_errored_candidate :
    unprocessedLoop [.ok (.ok A8), .error (), .ok (.ok B8)] = [A8.toOut] ∧
    B8.toOut ∉ unprocessedLoop [.ok (.ok A8), .error (), .ok (.ok B8)] ∧
    B8.status = .Pending := by
  decide

/-- Claim C2: approving a stored pending paper succeeds, after which a
selection constrained to `Pending` no longer returns any paper with that pid
while a selection constrained to `Approved` returns the moved record; if it
was the only paper, the approved selection is exactly that record and the
pending selection is empty. -/
theorem approve_moves_status (w : List Paper) (pid : Nat) (p : Paper)
    (hw : PaperWorld.wf w) (hp : p ∈ w) (h1 : p.pid = pid)
    (h2 : p.status = Status.Pending) :
    (approve w pid).1 = .ok () ∧
    (∀ q ∈ selectPaper (approve w pid).2 1 Status.Pending.toDim, q.pid ≠ pid) ∧
    { p with status := Status.Approved } ∈
      selectPaper (approve w pid).2 1 Status.Approved.toDim ∧
    (w = [p] →
      selectPaper (approve w pid).2 1 Status.Approved.toDim =
        [{ p with status := Status.Approved }] ∧
      selectPaper (approve w pid).2 1 Status.Pending.toDim = []) := by
  refine ⟨?_, ?_, ?_, ?_⟩
  · rw [approve_found hw hp h1 h2]
  · intro q hq hqpid
    have hm := selectPaper_mem.mp hq
    have hpend : q.status = Status.Pending := dim1_some.mp hm.2
    rcases (mem_approve hw hp h1 h2).mp hm.1 with ⟨_, hk0, _⟩ | rfl
    · exact hk0 (by simp [paperKey, hqpid, hpend, Status.toDim])
    · simp at hpend
  · exact selectPaper_mem.mpr
      ⟨(mem_approve hw hp h1 h2).mpr (Or.inr rfl), dim1_some.mpr rfl⟩
  · rintro rfl
    have happ := approve_found hw hp h1 h2
    have hrm : removeAt [p] (paperKey p) = [] := by simp [removeAt]
    have hw2 : (approve [p] pid).2 = [{ p with status := Status.Approved }] := by
      rw [happ, hrm]
      rfl
    rw [hw2]
    have hc1 : decide (Paper.dim { p with status := Status.Approved } 1 =
        some Status.Approved.toDim) = true :=
      decide_eq_true rfl
    have hc2 : ¬ decide (Paper.dim { p with status := Status.Approved } 1 =
        some Status.Pending.toDim) = true := by
      simp [Paper.dim, Status.toDim]
    constructor
    · unfold selectPaper
      rw [List.filter_cons, if_pos hc1]
      rfl
    · unfold selectPaper
      rw [List.filter_cons, if_neg hc2]
      rfl

/-- Closed instance of C2 at a one-paper store. -/
theorem approve_moves_status_witness :
    PaperWorld.wf [PW] ∧
    ((approve [PW] 5).1 = .ok () ∧
      (∀ q ∈ selectPaper (approve [PW] 5).2 1 Status.Pending.toDim, q.pid ≠ 5) ∧
      { PW with status := Status.Approved } ∈
        selectPaper (approve [PW] 5).2 1 Status.Approved.toDim ∧
      ([PW] = [PW] →
        selectPaper (approve [PW] 5).2 1 Status.Approved.toDim =
          [{ PW with status := Status.Approved }] ∧
        selectPaper (approve [PW] 5).2 1 Status.Pending.toDim = [])) :=
  ⟨by decide,
   approve_moves_status [PW] 5 PW (by decide) (by decide) (by decide) (by decide)⟩

/-- Claim C4: posting the same paper content twice makes the second
`try_insert` fail with `PidConflict` (HTTP 409), leaves the store unchanged,
and exactly one record exists under the derived identifier. -/
theorem post_duplicate_conflict (w : List Paper) (input : In) (t1 t2 : Nat)
    (hfresh : ∀ q ∈ w, q.pid ≠ paperPid input) :
    (post w input t1).1 = .ok () ∧
    (post (post w input t1).2 input t2).1 = .error .PidConflict ∧
    (post (post w input t1).2 input t2).2 = (post w input t1).2 ∧
    ((post w input t1).2.filter fun q => decide (q.pid = paperPid input)).length = 1 ∧
    PaperError.PidConflict.statusCode = 409 := by
  have hany1 : (w.any fun q =>
      decide (paperKey q = paperKey (Paper.fromIn input t1))) = false := by
    apply List.any_eq_false.mpr
    intro q hq
    simp only [decide_eq_true_eq]
    intro hk
    exact hfresh q hq (congrArg Prod.fst hk)
  have hins1 : tryInsertPaper w (Paper.fromIn input t1) =
      some (w ++ [Paper.fromIn input t1]) := by
    unfold tryInsertPaper
    rw [hany1]
    rfl
  have hp1 : post w input t1 = (.ok (), w ++ [Paper.fromIn input t1]) := by
    unfold post
    rw [hins1]
  have hany2 : ((w ++ [Paper.fromIn input t1]).any fun q =>
      decide (paperKey q = paperKey (Paper.fromIn input t2))) = true := by
    apply List.any_eq_true.mpr
    refine ⟨Paper.fromIn input t1, by simp, ?_⟩
    simp only [decide_eq_true_eq]
    rfl
  have hins2 : tryInsertPaper (w ++ [Paper.fromIn input t1])
      (Paper.fromIn input t2) = none := by
    unfold tryInsertPaper
    rw [hany2]
    rfl
  have hp2 : post (w ++ [Paper.fromIn input t1]) input t2 =
      (.error .PidConflict, w ++ [Paper.fromIn input t1]) := by
    unfold post
    rw [hins2]
  have hflt : w.filter (fun q => decide (q.pid = paperPid input)) = [] := by
    apply List.filter_eq_nil_iff.mpr
    intro q hq
    simp only [decide_eq_true_eq]
    exact hfresh q hq
  refine ⟨by rw [hp1], ?_, ?_, ?_, rfl⟩
  · rw [hp1]
    show (post (w ++ [Paper.fromIn input t1]) input t2).1 = .error .PidConflict
    rw [hp2]
  · rw [hp1]
    show (post (w ++ [Paper.fromIn input t1]) input t2).2 =
      w ++ [Paper.fromIn input t1]
    rw [hp2]
  · rw [hp1]
    show ((w ++ [Paper.fromIn input t1]).filter
      fun q => decide (q.pid = paperPid input)).length = 1
    have hcnew : decide ((Paper.fromIn input t1).pid = paperPid input) = true :=
      decide_eq_true (show (Paper.fromIn input t1).pid = paperPid input from rfl)
    rw [List.filter_append, hflt, List.nil_append, List.filter_cons, if_pos hcnew]
    rfl

/-- Closed instance of C4 starting from the empty store. -/
theorem post_duplicate_conflict_witness :
    (∀ q ∈ ([] : List Paper), q.pid ≠ paperPid exIn) ∧
    ((post [] exIn 0).1 = .ok () ∧
      (post (post [] exIn 0).2 exIn 1).1 = .error .PidConflict ∧
      (post (post [] exIn 0).2 exIn 1).2 = (post [] exIn 0).2 ∧
      ((post [] exIn 0).2.filter fun q => decide (q.pid = paperPid exIn)).length = 1 ∧
      PaperError.PidConflict.statusCode = 409) :=
  ⟨by simp, post_duplicate_conflict [] exIn 0 1 (by simp)⟩

/-- Claim C5 counterexample: resubmitting the identical question content one
time unit later returns `PidConflict`, but the stored world is no longer
`[the previously stored question]` — the old record was replaced, not left
unchanged. -/
theorem question_resubmission_cex :
    (newQuestion [Question.fromIn exIn 0] exIn 1).1 = .error .PidConflict ∧
    (newQuestion [Question.fromIn exIn 0] exIn 1).2 ≠ [Question.fromIn exIn 0] := by
  decide

/-- Claim C5 (amended): when the derived identifier is already occupied,
`POST /questions/new` returns `PidConflict` and exactly one record remains
under that identifier — but it is the freshly converted submission, which
replaces the previously stored question (`insert` semantics), rather than
leaving the stored record unchanged. -/
theorem question_resubmission_replaces (w : List Question) (input : In) (t : Nat)
    (q0 : Question) (hq0 : q0 ∈ w) (hpid : q0.pid = questionPid input)
    (hnd : (w.map Question.pid).Nodup) :
    (newQuestion w input t).1 = .error .PidConflict ∧
    (newQuestion w input t).2 =
      w.map (fun r => if r.pid = questionPid input then Question.fromIn input t else r) ∧
    ((newQuestion w input t).2.filter
      fun r => decide (r.pid = questionPid input)).length = 1 := by
  have hfs : ((w.find? fun r =>
      decide (r.pid = (Question.fromIn input t).pid))).isSome = true :=
    List.find?_isSome.mpr ⟨q0, hq0, decide_eq_true hpid⟩
  obtain ⟨prev, hprev⟩ := Option.isSome_iff_exists.mp hfs
  have hins : insertQuestion w (Question.fromIn input t) =
      (some prev, w.map fun r =>
        if r.pid = (Question.fromIn input t).pid then Question.fromIn input t else r) := by
    unfold insertQuestion
    rw [hprev]
  have hnew : newQuestion w input t =
      (.error .PidConflict, w.map fun r =>
        if r.pid = (Question.fromIn input t).pid then Question.fromIn input t else r) := by
    unfold newQuestion
    rw [hins]
  refine ⟨by rw [hnew], ?_, ?_⟩
  · rw [hnew]
    exact rfl
  · rw [hnew]
    show ((w.map fun r =>
        if r.pid = (Question.fromIn input t).pid then Question.fromIn input t else r).filter
      fun r => decide (r.pid = questionPid input)).length = 1
    rw [List.filter_map, List.length_map]
    have hcong : ((fun r => decide (r.pid = questionPid input)) ∘
        (fun r => if r.pid = (Question.fromIn input t).pid
          then Question.fromIn input t else r)) =
        fun r => decide (r.pid = questionPid input) := by
      funext r
      by_cases hr : r.pid = questionPid input
      · simp [Function.comp, Question.fromIn, hr]
      · simp [Function.comp, Question.fromIn, hr]
    rw [hcong]
    exact length_filter_key_eq_one Question.pid w (questionPid input) hnd ⟨q0, hq0, hpid⟩

/-- Closed instance of C5 (amended). -/
theorem question_resubmission_replaces_witness :
    (Question.fromIn exIn 0).pid = questionPid exIn ∧
    ((newQuestion [Question.fromIn exIn 0] exIn 1).1 = .error .PidConflict ∧
      (newQuestion [Question.fromIn exIn 0] exIn 1).2 =
        [Question.fromIn exIn 0].map
          (fun r => if r.pid = questionPid exIn then Question.fromIn exIn 1 else r) ∧
      ((newQuestion [Question.fromIn exIn 0] exIn 1).2.filter
        fun r => decide (r.pid = questionPid exIn)).length = 1) :=
  ⟨rfl, question_resubmission_replaces [Question.fromIn exIn 0] exIn 1
    (Question.fromIn exIn 0) (by simp) rfl (by simp)⟩

/-- Claim C6: rejecting a stored pending paper destroys it — it is gone from
the world, selections by its pid or by pending status no longer return it,
and a second reject of the same pid fails with `NotFound` rather than
succeeding as a no-op. -/
theorem reject_destroy_finality (w : List Paper) (pid : Nat) (p : Paper)
    (hw : PaperWorld.wf w) (hp : p ∈ w) (h1 : p.pid = pid)
    (h2 : p.status = Status.Pending) :
    (reject w pid).1 = .ok () ∧
    p ∉ (reject w pid).2 ∧
    (∀ q ∈ selectPaper (reject w pid).2 0 pid, q ≠ p) ∧
    (∀ q ∈ selectPaper (reject w pid).2 1 Status.Pending.toDim, q ≠ p) ∧
    reject (reject w pid).2 pid = (.error .NotFound, (reject w pid).2) := by
  have hrw := reject_found hw hp h1 h2
  have h2w : (reject w pid).2 = removeAt w (paperKey p) := by rw [hrw]
  refine ⟨by rw [hrw], ?_, ?_, ?_, ?_⟩
  · rw [h2w]
    intro hmem
    exact (mem_removeAt.mp hmem).2 rfl
  · rw [h2w]
    intro q hq hqp
    exact (mem_removeAt.mp (selectPaper_mem.mp hq).1).2 (by rw [hqp])
  · rw [h2w]
    intro q hq hqp
    exact (mem_removeAt.mp (selectPaper_mem.mp hq).1).2 (by rw [hqp])
  · rw [h2w]
    apply reject_none
    intro x hx e0 e1
    apply (mem_removeAt.mp hx).2
    simp [paperKey, e0, e1, h1, h2, Status.toDim]

/-- Closed instance of C6 at a one-paper store. -/
theorem reject_destroy_finality_witness :
    PaperWorld.wf [PW] ∧
    ((reject [PW] 5).1 = .ok () ∧
      PW ∉ (reject [PW] 5).2 ∧
      (∀ q ∈ selectPaper (reject [PW] 5).2 0 5, q ≠ PW) ∧
      (∀ q ∈ selectPaper (reject [PW] 5).2 1 Status.Pending.toDim, q ≠ PW) ∧
      reject (reject [PW] 5).2 5 = (.error .NotFound, (reject [PW] 5).2)) :=
  ⟨by decide,
   reject_destroy_finality [PW] 5 PW (by decide) (by decide) (by decide) (by decide)⟩

/-- Claim C9 counterexample: in the well-formed store `[P9, Q9]` — a pending
and an approved paper sharing pid 5, with the pending record first in
iteration order — an approved paper exists, yet `GET /paper/get` returns the
pending record `P9`. -/
theorem paper_get_returns_pending_cex :
    PaperWorld.wf [P9, Q9] ∧
    (∃ a ∈ [P9, Q9], a.status = Status.Approved) ∧
    getPaper [P9, Q9] 0 = .ok P9 ∧
    P9.status = Status.Pending := by
  decide

/-- Claim C9 (amended): `GET /paper/get` returns `NoPaper` exactly when no
approved paper exists; otherwise it returns a stored record whose pid equals
the pid drawn among the approved records' pids (that record itself may be a
pending paper sharing the pid, as the counterexample shows), and every
approved record's pid is drawn for some outcome of the random choice. -/
theorem paper_get_characterization (w : List Paper) (r : Nat) :
    ((getPaper w r = .error .NoPaper) ↔ ∀ p ∈ w, p.status ≠ Status.Approved) ∧
    ((∃ a ∈ w, a.status = Status.Approved) →
      ∃ p, getPaper w r = .ok p ∧ p ∈ w ∧
        ∃ a ∈ w, a.status = Status.Approved ∧ a.pid = p.pid) ∧
    (∀ a ∈ w, a.status = Status.Approved →
      ∃ r2 p, getPaper w r2 = .ok p ∧ p.pid = a.pid) := by
  refine ⟨?_, ?_, ?_⟩
  · cases hids : approvedPids w with
    | nil =>
      have hall : ∀ p ∈ w, p.status ≠ Status.Approved := by
        intro p hpw hs
        have hmem : p.pid ∈ approvedPids w := mem_approvedPids.mpr ⟨p, hpw, hs, rfl⟩
        rw [hids] at hmem
        simp at hmem
      exact ⟨fun _ => hall, fun _ => getPaper_nil hids r⟩
    | cons x xs =>
      obtain ⟨p, hok, _, _⟩ := getPaper_ok r hids
      constructor
      · intro h
        rw [hok] at h
        simp at h
      · intro hall
        have hx : x ∈ approvedPids w := by
          rw [hids]; exact List.mem_cons_self x xs
        obtain ⟨a, haw, hsa, _⟩ := mem_approvedPids.mp hx
        exact absurd hsa (hall a haw)
  · rintro ⟨a, haw, hsa⟩
    have hmem : a.pid ∈ approvedPids w := mem_approvedPids.mpr ⟨a, haw, hsa, rfl⟩
    cases hids : approvedPids w with
    | nil => rw [hids] at hmem; simp at hmem
    | cons x xs =>
      obtain ⟨p, hok, hpw, hpid⟩ := getPaper_ok r hids
      have hpid0 : (x :: xs).getD (r % (x :: xs).length) 0 ∈ approvedPids w := by
        rw [hids]; exact getD_mod_mem x xs r
      obtain ⟨a2, ha2, hs2, hpa2⟩ := mem_approvedPids.mp hpid0
      exact ⟨p, hok, hpw, a2, ha2, hs2, hpa2.trans hpid.symm⟩
  · intro a haw hsa
    have hmem : a.pid ∈ approvedPids w := mem_approvedPids.mpr ⟨a, haw, hsa, rfl⟩
    cases hids : approvedPids w with
    | nil => rw [hids] at hmem; simp at hmem
    | cons x xs =>
      rw [hids] at hmem
      obtain ⟨i, hi, hgi⟩ := List.mem_iff_getElem.mp hmem
      obtain ⟨p, hok, hpw, hpid⟩ := getPaper_ok i hids
      refine ⟨i, p, hok, ?_⟩
      rw [hpid, Nat.mod_eq_of_lt hi, List.getD_eq_getElem _ _ hi, hgi]

/-- Closed instance of C9 (amended) at a store with one approved paper. -/
theorem paper_get_characterization_witness :
    ∃ p, getPaper [Q9] 0 = .ok p ∧ p ∈ [Q9] ∧
      ∃ a ∈ [Q9], a.status = Status.Approved ∧ a.pid = p.pid :=
  (paper_get_characterization [Q9] 0).2.1 ⟨Q9, by simp, rfl⟩

/-- Claim C10: approve is not idempotent at the public interface — when no
stored paper with the requested pid is pending (the pid is absent, or its
paper is already approved), the handler returns `NotFound` (HTTP 404) and
leaves the store unchanged; in particular a second approve of the same pid
always fails with `NotFound`. -/
theorem approve_not_idempotent :
    (∀ (w : List Paper) (pid : Nat),
      (∀ x ∈ w, x.pid = pid → x.status ≠ Status.Pending) →
      approve w pid = (.error .NotFound, w)) ∧
    PaperError.NotFound.statusCode = 404 ∧
    (∀ (w : List Paper) (pid : Nat) (p : Paper),
      PaperWorld.wf w → p ∈ w → p.pid = pid → p.status = Status.Pending →
      approve (approve w pid).2 pid = (.error .NotFound, (approve w pid).2)) := by
  refine ⟨fun w pid hno => approve_none hno, rfl, ?_⟩
  intro w pid p hw hp h1 h2
  apply approve_none
  intro x hx e0 e1
  rcases (mem_approve hw hp h1 h2).mp hx with ⟨_, hk0, _⟩ | rfl
  · exact hk0 (by simp [paperKey, e0, e1, Status.toDim])
  · simp at e1

/-- Closed instance of C10: approving an already-approved pid, and approving
twice. -/
theorem approve_not_idempotent_witness :
    (∀ x ∈ [Q9], x.pid = 5 → x.status ≠ Status.Pending) ∧
    approve [Q9] 5 = (.error .NotFound, [Q9]) ∧
    PaperWorld.wf [PW] ∧
    approve (approve [PW] 5).2 5 = (.error .NotFound, (approve [PW] 5).2) :=
  ⟨by decide, approve_not_idempotent.1 [Q9] 5 (by decide), by decide,
   approve_not_idempotent.2.2 [PW] 5 PW (by decide) (by decide) (by decide) (by decide)⟩

end Subboard
